import Mathlib

/-!
Shallow embedding of the FaceFolio backend (`FaceFolio/backend/main.py`).

Numeric values that the Python code manipulates as floats are modelled as
real numbers (`ℝ`); bounding-box coordinates, which stay rational throughout
(integers after clipping), are modelled over `ℚ`.  Embedding vectors are
`List ℝ`.  The two HTTP endpoints are modelled as pure functions: file-system
facts (existence of a path, whether a deletion raises) enter as oracle
parameters, and the observable effects (data written to the pickle file, the
in-memory cache, the response) are returned in a record.
-/

namespace FaceFolio

/-- `np.dot` on equal-length vectors: sum of pointwise products
(`List.zipWith` truncates to the shorter length, which agrees with numpy on
the equal-length inputs the program produces). -/
def dotp (a b : List ℝ) : ℝ := (List.zipWith (· * ·) a b).sum

/-- `np.linalg.norm`: Euclidean norm, the square root of the sum of squares. -/
noncomputable def norm2 (a : List ℝ) : ℝ := Real.sqrt (dotp a a)

/-- `cosine_distance(a, b)` from `main.py`:
`1 - dot(a,b)/(‖a‖·‖b‖)`, with the zero-denominator guard returning `1.0`. -/
noncomputable def cosine_distance (a b : List ℝ) : ℝ :=
  let denom := norm2 a * norm2 b
  if denom = 0 then 1.0 else 1.0 - dotp a b / denom

/-- A bounding box `[x1, y1, x2, y2]`. -/
structure Box where
  x1 : ℚ
  y1 : ℚ
  x2 : ℚ
  y2 : ℚ
deriving DecidableEq, Repr

/-- `box_iou(boxA, boxB)` from `main.py`: intersection-over-union of two
boxes, `0.0` when the (clamped) union area is non-positive. -/
def box_iou (boxA boxB : Box) : ℚ :=
  let xA := max boxA.x1 boxB.x1
  let yA := max boxA.y1 boxB.y1
  let xB := min boxA.x2 boxB.x2
  let yB := min boxA.y2 boxB.y2
  let interW := max 0 (xB - xA)
  let interH := max 0 (yB - yA)
  let interArea := interW * interH
  let boxAArea := max 0 (boxA.x2 - boxA.x1) * max 0 (boxA.y2 - boxA.y1)
  let boxBArea := max 0 (boxB.x2 - boxB.x1) * max 0 (boxB.y2 - boxB.y1)
  let denom := boxAArea + boxBArea - interArea
  if denom ≤ 0 then 0 else interArea / denom

/-! ### Basic lemmas about the vector arithmetic -/

lemma dotp_nil_left (b : List ℝ) : dotp [] b = 0 := rfl

lemma dotp_nil_right (a : List ℝ) : dotp a [] = 0 := by
  cases a <;> rfl

lemma dotp_cons (x y : ℝ) (a b : List ℝ) :
    dotp (x :: a) (y :: b) = x * y + dotp a b := by
  simp [dotp]

lemma dotp_comm (a b : List ℝ) : dotp a b = dotp b a := by
  induction a generalizing b with
  | nil => simp [dotp_nil_left, dotp_nil_right]
  | cons x a ih =>
    cases b with
    | nil => simp [dotp_nil_left, dotp_nil_right]
    | cons y b => simp [dotp_cons, ih, mul_comm]

lemma dotp_self_nonneg (a : List ℝ) : 0 ≤ dotp a a := by
  induction a with
  | nil => simp [dotp_nil_left]
  | cons x a ih =>
    rw [dotp_cons]
    have hx : 0 ≤ x * x := mul_self_nonneg x
    linarith

/-- Cauchy–Schwarz for the list dot product. -/
lemma dotp_sq_le (a b : List ℝ) : dotp a b ^ 2 ≤ dotp a a * dotp b b := by
  induction a generalizing b with
  | nil => simp [dotp_nil_left]
  | cons x a ih =>
    cases b with
    | nil =>
      simp [dotp_nil_right]
    | cons y b =>
      have hA : 0 ≤ dotp a a := dotp_self_nonneg a
      have hB : 0 ≤ dotp b b := dotp_self_nonneg b
      have hd : dotp a b ^ 2 ≤ dotp a a * dotp b b := ih b
      rw [dotp_cons, dotp_cons, dotp_cons]
      rcases hA.eq_or_lt with hA0 | hApos
      · have hd0 : dotp a b = 0 := by nlinarith [sq_nonneg (dotp a b)]
        rw [← hA0, hd0]
        nlinarith [mul_nonneg (mul_self_nonneg x) hB]
      · have hcert :
            dotp a a *
                ((x * x + dotp a a) * (y * y + dotp b b) - (x * y + dotp a b) ^ 2) =
              (x * dotp a b - dotp a a * y) ^ 2 +
                (x ^ 2 + dotp a a) * (dotp a a * dotp b b - dotp a b ^ 2) := by
          ring
        have h1 :
            0 ≤ (x * dotp a b - dotp a a * y) ^ 2 +
                (x ^ 2 + dotp a a) * (dotp a a * dotp b b - dotp a b ^ 2) :=
          add_nonneg (sq_nonneg _)
            (mul_nonneg (add_nonneg (sq_nonneg x) hA) (sub_nonneg.mpr hd))
        have h2 :
            0 ≤ (x * x + dotp a a) * (y * y + dotp b b) - (x * y + dotp a b) ^ 2 := by
          have h3 :
              0 ≤ dotp a a *
                ((x * x + dotp a a) * (y * y + dotp b b) - (x * y + dotp a b) ^ 2) := by
            rw [hcert]; exact h1
          exact nonneg_of_mul_nonneg_right h3 hApos
        linarith

lemma norm2_nonneg (a : List ℝ) : 0 ≤ norm2 a := Real.sqrt_nonneg _

lemma norm2_mul_norm2 (a b : List ℝ) :
    norm2 a * norm2 b = Real.sqrt (dotp a a * dotp b b) := by
  rw [norm2, norm2, ← Real.sqrt_mul (dotp_self_nonneg a)]

/-- Cauchy–Schwarz in the norm form used to bound the cosine similarity. -/
lemma abs_dotp_le (a b : List ℝ) : |dotp a b| ≤ norm2 a * norm2 b := by
  rw [norm2_mul_norm2]
  have h := dotp_sq_le a b
  have h2 : |dotp a b| = Real.sqrt (dotp a b ^ 2) := by
    rw [Real.sqrt_sq_eq_abs]
  rw [h2]
  exact Real.sqrt_le_sqrt h

/-! ### `np.argmin` and `find_best_match` -/

/-- Linear scan underlying `np.argmin`: `i` is the index of the next element,
`bi`/`bv` are the index and value of the best element seen so far. -/
noncomputable def argminAux : List ℝ → ℕ → ℕ → ℝ → ℕ
  | [], _, bi, _ => bi
  | x :: xs, i, bi, bv =>
    if x < bv then argminAux xs (i + 1) i x else argminAux xs (i + 1) bi bv

/-- `np.argmin` on a non-empty list: index of the (first) minimal element. -/
noncomputable def np_argmin : List ℝ → ℕ
  | [] => 0
  | x :: xs => argminAux xs 1 0 x

/-- `find_best_match(known_encodings, encoding, threshold)` from `main.py`:
`None` on an empty list, otherwise the `np.argmin` of the cosine distances
when that minimal distance is at most `threshold`, else `None`. -/
noncomputable def find_best_match (known_encodings : List (List ℝ))
    (encoding : List ℝ) (threshold : ℝ) : Option ℕ :=
  if known_encodings = [] then none
  else
    let distances := known_encodings.map fun k => cosine_distance k encoding
    let best_idx := np_argmin distances
    if distances.getD best_idx 0 ≤ threshold then some best_idx else none

/-! ### The `/api/process-photo` endpoint

`process_photo` is modelled on its pure core: the uploaded file, MTCNN and
the ResNet are outside the program, so the detected boxes, the embedding
batch and the uuid supply are parameters; the observable outputs (response
fields, cache) are returned.  Crop files are visible only through their URLs.
-/

/-- The in-memory `temp_face_encoding_cache` dict: a key is either absent
(`none`) or present with a value that is itself `None` or an encoding. -/
def Cache : Type := String → Option (Option (List ℝ))

/-- Python dict assignment `cache[k] = v`. -/
def cacheInsert (c : Cache) (k : String) (v : Option (List ℝ)) : Cache :=
  fun q => if q = k then some v else c q

/-- Python `del cache[k]`. -/
def cacheDelete (c : Cache) (k : String) : Cache :=
  fun q => if q = k then none else c q

/-- Python `set.add` on the set modelled as a duplicate-free list. -/
def insertSet (l : List String) (n : String) : List String :=
  if n ∈ l then l else l ++ [n]

/-- The box clipping at the top of the detection loop:
`int(max(0, b))` on each coordinate (truncation of a non-negative value is
the floor), then `x2 = min(width, x2)`, `y2 = min(height, y2)`,
`x1 = max(0, x1)`, `y1 = max(0, y1)`. -/
def clipBox (width height : ℤ) (b : Box) : Box :=
  let x1 : ℤ := Int.floor (max 0 b.x1)
  let y1 : ℤ := Int.floor (max 0 b.y1)
  let x2 : ℤ := min width (Int.floor (max 0 b.x2))
  let y2 : ℤ := min height (Int.floor (max 0 b.y2))
  { x1 := (max 0 x1 : ℤ), y1 := (max 0 y1 : ℤ), x2 := (x2 : ℚ), y2 := (y2 : ℚ) }

/-- Mutable state of the detection loop in `process_photo`. -/
structure PhotoState where
  identified : List String
  unidentified : List (String × String)
  cache : Cache
  seen_encodings : List (List ℝ)
  seen_boxes : List Box

/-- First duplicate test: some embedding already seen in this photo is at
cosine distance below `0.08` (vacuously false when there is no embedding or
no seen encodings, as in the code's guard). -/
noncomputable def dupByEncoding (seen : List (List ℝ))
    (encoding : Option (List ℝ)) : Bool :=
  match encoding with
  | some e => seen.any fun se => decide (cosine_distance se e < 0.08)
  | none => false

/-- Fallback duplicate test: IoU with some already seen box exceeds `0.6`. -/
def dupByIoU (seen : List Box) (cb : Box) : Bool :=
  seen.any fun sb => decide (box_iou sb cb > 0.6)

/-- One iteration of the detection loop of `process_photo` for the detection
with box `box`, embedding `encoding` (`none` when the embedding batch is too
short) and fresh uuid `temp_id`. -/
noncomputable def processStep (known_encodings : List (List ℝ))
    (known_names : List String) (width height : ℤ) (s : PhotoState)
    (box : Box) (encoding : Option (List ℝ)) (temp_id : String) : PhotoState :=
  let cb := clipBox width height box
  let d1 := dupByEncoding s.seen_encodings encoding
  let is_duplicate := d1 || (!d1 && dupByIoU s.seen_boxes cb)
  if is_duplicate then s
  else
    let matched : Option ℕ :=
      match encoding with
      | some e =>
        if known_encodings = [] then none
        else find_best_match known_encodings e 0.6
      | none => none
    match matched with
    | some midx =>
      { s with identified := insertSet s.identified (known_names.getD midx "") }
    | none =>
      { identified := s.identified
        unidentified :=
          s.unidentified ++ [(temp_id, "/temp_crops/" ++ temp_id ++ ".jpg")]
        cache := cacheInsert s.cache temp_id encoding
        seen_encodings :=
          match encoding with
          | some e => s.seen_encodings ++ [e]
          | none => s.seen_encodings
        seen_boxes := s.seen_boxes ++ [cb] }

/-- The detection loop: `idx` enumerates the boxes, `embeddings.get? idx`
is `embeddings[idx] if len(embeddings) > idx else None`, and `ids idx` is
the uuid drawn for the detection. -/
noncomputable def processLoop (known_encodings : List (List ℝ))
    (known_names : List String) (width height : ℤ)
    (embeddings : List (List ℝ)) (ids : ℕ → String) :
    List Box → ℕ → PhotoState → PhotoState
  | [], _, s => s
  | b :: rest, idx, s =>
    processLoop known_encodings known_names width height embeddings ids rest
      (idx + 1)
      (processStep known_encodings known_names width height s b
        (embeddings.get? idx) (ids idx))

/-- The response of `/api/process-photo` together with the state it leaves
behind.  `process_photo` never writes the pickle store, so the store fields
simply carry the loaded store through unchanged. -/
structure ProcessResult where
  temp_photo_path : String
  identified_people : List String
  unidentified_faces : List (String × String)
  cache : Cache
  store_encodings : List (List ℝ)
  store_names : List String

/-- `process_photo` from `main.py`, over the pure data the handler computes
with: the loaded store, the current cache, the image size, the uploaded
file's name, the detected boxes, the embedding batch and the uuid supply. -/
noncomputable def process_photo (known_encodings : List (List ℝ))
    (known_names : List String) (cache : Cache) (width height : ℤ)
    (filename : String) (boxes : List Box) (embeddings : List (List ℝ))
    (ids : ℕ → String) : ProcessResult :=
  let temp_photo_path := "temp_uploads/" ++ filename
  if boxes.isEmpty then
    { temp_photo_path := temp_photo_path
      identified_people := []
      unidentified_faces := []
      cache := cache
      store_encodings := known_encodings
      store_names := known_names }
  else
    let final :=
      processLoop known_encodings known_names width height embeddings ids
        boxes 0 ⟨[], [], cache, [], []⟩
    { temp_photo_path := temp_photo_path
      identified_people := final.identified
      unidentified_faces := final.unidentified
      cache := final.cache
      store_encodings := known_encodings
      store_names := known_names }

/-! ### The `/api/finalize-and-sort` endpoint -/

/-- One entry of the request's `new_labels`. -/
structure NewLabel where
  temp_id : String
  name : String

/-- The `FinalizeSortRequest` body. -/
structure FinalizeRequest where
  temp_photo_path : String
  identified_people : List String
  new_labels : List NewLabel

/-- The data `save_known_faces` writes wholesale to the pickle file. -/
structure StoredData where
  encodings : List (List ℝ)
  names : List String

/-- `save_known_faces(known_encodings, known_names)`: converts each encoding
to a plain list (`np.asarray(e).tolist()`, the identity on our model) and
writes both lists to the single pickle file. -/
def save_known_faces (known_encodings : List (List ℝ))
    (known_names : List String) : StoredData :=
  { encodings := known_encodings.map fun e => e
    names := known_names }

/-- State threaded through the `for label in request.new_labels` loop. -/
structure BrainState where
  known_encodings : List (List ℝ)
  known_names : List String
  cache : Cache
  all_names : List String

/-- One iteration of the learning loop in `finalize_and_sort`: a blank name
is skipped; otherwise the name joins `all_names_in_photo`, and when the
cache still holds a non-`None` encoding for `temp_id` the pair is appended
to the store and the cache entry deleted. -/
def learnLabel (s : BrainState) (label : NewLabel) : BrainState :=
  if label.name = "" then s
  else
    let s1 := { s with all_names := insertSet s.all_names label.name }
    match s.cache label.temp_id with
    | some (some enc) =>
      { s1 with
        known_encodings := s1.known_encodings ++ [enc]
        known_names := s1.known_names ++ [label.name]
        cache := cacheDelete s1.cache label.temp_id }
    | _ => s1

/-- `set(request.identified_people)` as a duplicate-free list. -/
def dedupNames (l : List String) : List String :=
  l.foldl insertSet []

/-- `os.remove` as seen through the failure oracle: it either succeeds or
raises. -/
def os_remove (removeFails : String → Bool) (p : String) : Except Unit Unit :=
  if removeFails p then Except.error () else Except.ok ()

/-- `try: os.remove(p) except Exception: pass` — the exception is swallowed;
the returned list records the paths actually removed. -/
def tryRemove (removeFails : String → Bool) (p : String) : List String :=
  match os_remove removeFails p with
  | Except.ok _ => [p]
  | Except.error _ => []

/-- The success message `f"Photo sorted successfully for {...}"`. -/
def success_message (names : List String) : String :=
  "Photo sorted successfully for " ++ String.intercalate ", " names

/-- Everything observable about a `finalize_and_sort` call: the data written
to the pickle file, the cache afterwards, the folder names the photo was
copied under, the temp files removed during cleanup, and the HTTP response
(`Except.error s` is an `HTTPException` with status `s`). -/
structure FinalizeOutcome where
  saved : StoredData
  cache : Cache
  sorted_under : List String
  removed : List String
  response : Except ℕ String

/-- `finalize_and_sort` from `main.py` over the loaded store, the current
cache and the request; `fsExists` tells which paths exist and `removeFails`
which deletions raise. -/
def finalize_and_sort (known_encodings : List (List ℝ))
    (known_names : List String) (cache : Cache) (request : FinalizeRequest)
    (fsExists : String → Bool) (removeFails : String → Bool) :
    FinalizeOutcome :=
  let s :=
    request.new_labels.foldl learnLabel
      ⟨known_encodings, known_names, cache, dedupNames request.identified_people⟩
  let saved := save_known_faces s.known_encodings s.known_names
  if fsExists request.temp_photo_path = false then
    { saved := saved
      cache := s.cache
      sorted_under := []
      removed := []
      response := Except.error 404 }
  else
    let cleanup :=
      tryRemove removeFails request.temp_photo_path ++
        (request.new_labels.map fun label =>
          let crop_path := "temp_crops/" ++ label.temp_id ++ ".jpg"
          if fsExists crop_path then tryRemove removeFails crop_path
          else []).flatten
    { saved := saved
      cache := s.cache
      sorted_under := s.all_names
      removed := cleanup
      response := Except.ok (success_message s.all_names) }

lemma getD_mem_of_lt {α : Type} (l : List α) (n : ℕ) (d : α) (h : n < l.length) :
    l.getD n d ∈ l := by
  rw [List.getD_eq_getElem l d h]
  exact List.getElem_mem h

lemma argminAux_spec (l : List ℝ) :
    ∀ (i bi : ℕ) (bv : ℝ),
      (argminAux l i bi bv = bi ∧ ∀ y ∈ l, bv ≤ y) ∨
      (∃ k, k < l.length ∧ argminAux l i bi bv = i + k ∧
        l.getD k 0 ≤ bv ∧ ∀ y ∈ l, l.getD k 0 ≤ y) := by
  induction l with
  | nil => intro i bi bv; exact Or.inl ⟨rfl, by simp⟩
  | cons x xs ih =>
    intro i bi bv
    by_cases hx : x < bv
    · have hstep : argminAux (x :: xs) i bi bv = argminAux xs (i + 1) i x := by
        simp [argminAux, hx]
      rcases ih (i + 1) i x with ⟨hres, hall⟩ | ⟨k, hk, hres, hle, hall⟩
      · refine Or.inr ⟨0, by simp, ?_, ?_, ?_⟩
        · rw [hstep, hres]; simp
        · simpa using hx.le
        · intro y hy
          rcases List.mem_cons.mp hy with hy | hy
          · simp [hy]
          · simpa using hall y hy
      · refine Or.inr ⟨k + 1, by simpa using hk, ?_, ?_, ?_⟩
        · rw [hstep, hres]; omega
        · have : xs.getD k 0 ≤ x := hle
          simpa using this.trans hx.le
        · intro y hy
          rcases List.mem_cons.mp hy with hy | hy
          · simpa [hy] using hle
          · simpa using hall y hy
    · have hstep : argminAux (x :: xs) i bi bv = argminAux xs (i + 1) bi bv := by
        simp [argminAux, hx]
      push_neg at hx
      rcases ih (i + 1) bi bv with ⟨hres, hall⟩ | ⟨k, hk, hres, hle, hall⟩
      · refine Or.inl ⟨by rw [hstep, hres], ?_⟩
        intro y hy
        rcases List.mem_cons.mp hy with hy | hy
        · simpa [hy] using hx
        · exact hall y hy
      · refine Or.inr ⟨k + 1, by simpa using hk, ?_, ?_, ?_⟩
        · rw [hstep, hres]; omega
        · simpa using hle
        · intro y hy
          rcases List.mem_cons.mp hy with hy | hy
          · have : xs.getD k 0 ≤ bv := hle
            simpa [hy] using this.trans hx
          · simpa using hall y hy

lemma np_argmin_spec (l : List ℝ) (h : l ≠ []) :
    np_argmin l < l.length ∧ ∀ j < l.length, l.getD (np_argmin l) 0 ≤ l.getD j 0 := by
  cases l with
  | nil => exact absurd rfl h
  | cons x xs =>
    have hdef : np_argmin (x :: xs) = argminAux xs 1 0 x := rfl
    rcases argminAux_spec xs 1 0 x with ⟨hres, hall⟩ | ⟨k, hk, hres, hle, hall⟩
    · rw [hdef, hres]
      refine ⟨by simp, ?_⟩
      intro j hj
      cases j with
      | zero => simp
      | succ m =>
        have hm : m < xs.length := by simpa using hj
        have := hall (xs.getD m 0) (getD_mem_of_lt xs m 0 hm)
        simpa using this
    · rw [hdef, hres]
      refine ⟨by simp; omega, ?_⟩
      intro j hj
      have hget : (x :: xs).getD (1 + k) 0 = xs.getD k 0 := by
        have : 1 + k = k + 1 := by omega
        rw [this]; simp
      rw [hget]
      cases j with
      | zero => simpa using hle
      | succ m =>
        have hm : m < xs.length := by simpa using hj
        have := hall (xs.getD m 0) (getD_mem_of_lt xs m 0 hm)
        simpa using this

/-! ### Helper definitions naming the areas inside `box_iou` -/

/-- The clamped intersection area computed inside `box_iou`. -/
def interArea (boxA boxB : Box) : ℚ :=
  max 0 (min boxA.x2 boxB.x2 - max boxA.x1 boxB.x1) *
    max 0 (min boxA.y2 boxB.y2 - max boxA.y1 boxB.y1)

/-- The clamped area of a single box as computed inside `box_iou`. -/
def boxArea (b : Box) : ℚ :=
  max 0 (b.x2 - b.x1) * max 0 (b.y2 - b.y1)

/-- The denominator of `box_iou`: sum of the clamped areas minus the
intersection area. -/
def unionDenom (boxA boxB : Box) : ℚ :=
  boxArea boxA + boxArea boxB - interArea boxA boxB

lemma box_iou_eq (boxA boxB : Box) :
    box_iou boxA boxB =
      if unionDenom boxA boxB ≤ 0 then 0
      else interArea boxA boxB / unionDenom boxA boxB := rfl

lemma interArea_nonneg (boxA boxB : Box) : 0 ≤ interArea boxA boxB :=
  mul_nonneg (le_max_left 0 _) (le_max_left 0 _)

lemma interArea_le_boxArea_left (boxA boxB : Box) :
    interArea boxA boxB ≤ boxArea boxA := by
  unfold interArea boxArea
  have hw : max 0 (min boxA.x2 boxB.x2 - max boxA.x1 boxB.x1) ≤
      max 0 (boxA.x2 - boxA.x1) :=
    max_le_max le_rfl (sub_le_sub (min_le_left _ _) (le_max_left _ _))
  have hh : max 0 (min boxA.y2 boxB.y2 - max boxA.y1 boxB.y1) ≤
      max 0 (boxA.y2 - boxA.y1) :=
    max_le_max le_rfl (sub_le_sub (min_le_left _ _) (le_max_left _ _))
  exact mul_le_mul hw hh (le_max_left 0 _) (le_max_left 0 _)

lemma interArea_le_boxArea_right (boxA boxB : Box) :
    interArea boxA boxB ≤ boxArea boxB := by
  unfold interArea boxArea
  have hw : max 0 (min boxA.x2 boxB.x2 - max boxA.x1 boxB.x1) ≤
      max 0 (boxB.x2 - boxB.x1) :=
    max_le_max le_rfl (sub_le_sub (min_le_right _ _) (le_max_right _ _))
  have hh : max 0 (min boxA.y2 boxB.y2 - max boxA.y1 boxB.y1) ≤
      max 0 (boxB.y2 - boxB.y1) :=
    max_le_max le_rfl (sub_le_sub (min_le_right _ _) (le_max_right _ _))
  exact mul_le_mul hw hh (le_max_left 0 _) (le_max_left 0 _)

/-! ### Claim theorems: the numeric helpers -/

/-- Claim C5: for every pair of vectors, `cosine_distance` lies in `[0, 2]`;
it is exactly `1` when either vector has zero norm, and otherwise equals
`1` minus the cosine similarity, which Cauchy–Schwarz keeps inside `[0, 2]`. -/
theorem cosine_distance_bounds (a b : List ℝ) :
    0 ≤ cosine_distance a b ∧ cosine_distance a b ≤ 2 ∧
    ((norm2 a = 0 ∨ norm2 b = 0) → cosine_distance a b = 1) ∧
    (norm2 a ≠ 0 → norm2 b ≠ 0 →
      cosine_distance a b = 1 - dotp a b / (norm2 a * norm2 b)) := by
  by_cases hD : norm2 a * norm2 b = 0
  · have hcd : cosine_distance a b = 1 := by simp [cosine_distance, hD]; norm_num
    refine ⟨by rw [hcd]; norm_num, by rw [hcd]; norm_num, fun _ => hcd, ?_⟩
    intro ha hb
    exact absurd hD (mul_ne_zero ha hb)
  · have hcd : cosine_distance a b = 1 - dotp a b / (norm2 a * norm2 b) := by
      simp [cosine_distance, hD]; norm_num
    have hpos : 0 < norm2 a * norm2 b :=
      lt_of_le_of_ne (mul_nonneg (norm2_nonneg a) (norm2_nonneg b)) (Ne.symm hD)
    have habs := abs_dotp_le a b
    have hup : dotp a b ≤ norm2 a * norm2 b := (abs_le.mp habs).2
    have hlo : -(norm2 a * norm2 b) ≤ dotp a b := (abs_le.mp habs).1
    have h1 : dotp a b / (norm2 a * norm2 b) ≤ 1 := by
      rw [div_le_one hpos]; exact hup
    have h2 : (-1 : ℝ) ≤ dotp a b / (norm2 a * norm2 b) := by
      rw [le_div_iff₀ hpos]; linarith
    refine ⟨by rw [hcd]; linarith, by rw [hcd]; linarith, ?_, fun _ _ => hcd⟩
    intro h
    exfalso
    rcases h with h | h
    · exact hD (by rw [h, zero_mul])
    · exact hD (by rw [h, mul_zero])

/-- Claim C5, witnessed at concrete vectors. -/
theorem cosine_distance_bounds_witness :
    0 ≤ cosine_distance [1] [1, 2] ∧ cosine_distance [1] [1, 2] ≤ 2 ∧
    ((norm2 [1] = 0 ∨ norm2 [1, 2] = 0) → cosine_distance [1] [1, 2] = 1) ∧
    (norm2 [1] ≠ 0 → norm2 [1, 2] ≠ 0 →
      cosine_distance [1] [1, 2] =
        1 - dotp [1] [1, 2] / (norm2 [1] * norm2 [1, 2])) :=
  cosine_distance_bounds [1] [1, 2]

/-- Claim C6: `box_iou` always lies in `[0, 1]`; it is `0` whenever the
union denominator (sum of the clamped areas minus the intersection area) is
non-positive, and otherwise is the ratio of intersection to union area. -/
theorem box_iou_bounds (boxA boxB : Box) :
    0 ≤ box_iou boxA boxB ∧ box_iou boxA boxB ≤ 1 ∧
    (unionDenom boxA boxB ≤ 0 → box_iou boxA boxB = 0) ∧
    (¬unionDenom boxA boxB ≤ 0 →
      box_iou boxA boxB = interArea boxA boxB / unionDenom boxA boxB) := by
  by_cases hd : unionDenom boxA boxB ≤ 0
  · rw [box_iou_eq, if_pos hd]
    exact ⟨le_rfl, by norm_num, fun _ => rfl, fun hc => absurd hd hc⟩
  · rw [box_iou_eq, if_neg hd]
    have hpos : 0 < unionDenom boxA boxB := not_le.mp hd
    have hinter : 0 ≤ interArea boxA boxB := interArea_nonneg boxA boxB
    have hle : interArea boxA boxB ≤ unionDenom boxA boxB := by
      have h1 := interArea_le_boxArea_left boxA boxB
      have h2 := interArea_le_boxArea_right boxA boxB
      unfold unionDenom
      linarith
    refine ⟨div_nonneg hinter hpos.le, ?_, fun hc => absurd hc hd, fun _ => rfl⟩
    rw [div_le_one hpos]
    exact hle

/-- Claim C6, witnessed at concrete boxes. -/
theorem box_iou_bounds_witness :
    0 ≤ box_iou ⟨0, 0, 2, 2⟩ ⟨1, 1, 3, 3⟩ ∧
    box_iou ⟨0, 0, 2, 2⟩ ⟨1, 1, 3, 3⟩ ≤ 1 ∧
    (unionDenom ⟨0, 0, 2, 2⟩ ⟨1, 1, 3, 3⟩ ≤ 0 →
      box_iou ⟨0, 0, 2, 2⟩ ⟨1, 1, 3, 3⟩ = 0) ∧
    (¬unionDenom ⟨0, 0, 2, 2⟩ ⟨1, 1, 3, 3⟩ ≤ 0 →
      box_iou ⟨0, 0, 2, 2⟩ ⟨1, 1, 3, 3⟩ =
        interArea ⟨0, 0, 2, 2⟩ ⟨1, 1, 3, 3⟩ /
          unionDenom ⟨0, 0, 2, 2⟩ ⟨1, 1, 3, 3⟩) :=
  box_iou_bounds ⟨0, 0, 2, 2⟩ ⟨1, 1, 3, 3⟩

/-- Claim C7: `cosine_distance` is symmetric in its two arguments. -/
theorem cosine_distance_comm (a b : List ℝ) :
    cosine_distance a b = cosine_distance b a := by
  simp only [cosine_distance]
  rw [dotp_comm a b, mul_comm (norm2 a) (norm2 b)]

/-! ### Claim C1: `find_best_match` with the default threshold -/

lemma getD_map_of_lt {α β : Type} (f : α → β) (l : List α) (j : ℕ)
    (h : j < l.length) (d : α) (d2 : β) :
    (l.map f).getD j d2 = f (l.getD j d) := by
  rw [List.getD_eq_getElem (l.map f) d2 (by simpa using h),
    List.getD_eq_getElem l d h, List.getElem_map]

/-- Claim C1: with the default threshold `0.6`, `find_best_match` returns
`none` on an empty list; any returned index is in range, attains the minimal
cosine distance to the query, and that distance is at most `0.6`; and when it
returns `none` on a non-empty list every distance exceeds `0.6`. -/
theorem find_best_match_default (known : List (List ℝ)) (enc : List ℝ) :
    (known = [] → find_best_match known enc 0.6 = none) ∧
    (∀ i, find_best_match known enc 0.6 = some i →
      i < known.length ∧
      (∀ j, j < known.length →
        cosine_distance (known.getD i []) enc ≤
          cosine_distance (known.getD j []) enc) ∧
      cosine_distance (known.getD i []) enc ≤ 0.6) ∧
    (known ≠ [] → find_best_match known enc 0.6 = none →
      ∀ j, j < known.length → 0.6 < cosine_distance (known.getD j []) enc) := by
  by_cases hne : known = []
  · refine ⟨fun _ => by simp [find_best_match, hne], ?_, fun h => absurd hne h⟩
    intro i hi
    rw [find_best_match, if_pos hne] at hi
    exact absurd hi (by simp)
  · have hmapne : known.map (fun k => cosine_distance k enc) ≠ [] := by
      simpa using hne
    obtain ⟨hlt, hmin⟩ :=
      np_argmin_spec (known.map fun k => cosine_distance k enc) hmapne
    have hlen : (known.map fun k => cosine_distance k enc).length = known.length :=
      List.length_map _ _
    have hfb :
        find_best_match known enc 0.6 =
          if (known.map fun k => cosine_distance k enc).getD
              (np_argmin (known.map fun k => cosine_distance k enc)) 0 ≤ 0.6 then
            some (np_argmin (known.map fun k => cosine_distance k enc))
          else none := by
      rw [find_best_match, if_neg hne]
    have hgetD : ∀ j, j < known.length →
        (known.map fun k => cosine_distance k enc).getD j 0 =
          cosine_distance (known.getD j []) enc := by
      intro j hj
      exact getD_map_of_lt _ known j hj [] 0
    refine ⟨fun h => absurd h hne, ?_, ?_⟩
    · intro i hi
      rw [hfb] at hi
      by_cases hth :
          (known.map fun k => cosine_distance k enc).getD
            (np_argmin (known.map fun k => cosine_distance k enc)) 0 ≤ 0.6
      · rw [if_pos hth] at hi
        have hie : np_argmin (known.map fun k => cosine_distance k enc) = i :=
          Option.some.inj hi
        subst hie
        have hilt : np_argmin (known.map fun k => cosine_distance k enc) <
            known.length := by rwa [hlen] at hlt
        refine ⟨hilt, ?_, ?_⟩
        · intro j hj
          have := hmin j (by rwa [hlen])
          rwa [hgetD _ hilt, hgetD _ hj] at this
        · rwa [hgetD _ hilt] at hth
      · rw [if_neg hth] at hi
        exact absurd hi (by simp)
    · intro _ hnone j hj
      rw [hfb] at hnone
      by_cases hth :
          (known.map fun k => cosine_distance k enc).getD
            (np_argmin (known.map fun k => cosine_distance k enc)) 0 ≤ 0.6
      · rw [if_pos hth] at hnone
        exact absurd hnone (by simp)
      · push_neg at hth
        have hminj := hmin j (by rwa [hlen])
        have hilt : np_argmin (known.map fun k => cosine_distance k enc) <
            known.length := by rwa [hlen] at hlt
        rw [hgetD _ hilt, hgetD _ hj] at hminj
        rw [hgetD _ hilt] at hth
        exact lt_of_lt_of_le hth hminj

/-! Evaluation helpers on concrete inputs. -/

lemma dotp_one_one : dotp [(1 : ℝ)] [1] = 1 := by
  simp [dotp]

lemma norm2_one : norm2 [(1 : ℝ)] = 1 := by
  rw [norm2, dotp_one_one, Real.sqrt_one]

lemma cd_one_one : cosine_distance [(1 : ℝ)] [1] = 0 := by
  rw [cosine_distance]
  simp only [norm2_one, dotp_one_one]
  norm_num

lemma fbm_eval : find_best_match [[(1 : ℝ)]] [1] 0.6 = some 0 := by
  rw [find_best_match, if_neg (by simp)]
  simp only [List.map_cons, List.map_nil, cd_one_one]
  have h1 : np_argmin [(0 : ℝ)] = 0 := rfl
  rw [h1]
  rw [if_pos (by norm_num)]

/-- Claim C1, witnessed: on the singleton store `[[1]]` and query `[1]` the
match is index `0` and its distance is within the threshold. -/
theorem find_best_match_default_witness :
    (0 : ℕ) < [[(1 : ℝ)]].length ∧
    cosine_distance ([[(1 : ℝ)]].getD 0 []) [1] ≤ 0.6 :=
  ⟨((find_best_match_default [[(1 : ℝ)]] [1]).2.1 0 fbm_eval).1,
    ((find_best_match_default [[(1 : ℝ)]] [1]).2.1 0 fbm_eval).2.2⟩

/-! ### Claim C2: the duplicate filter inside `process_photo` -/

/-- Claim C2: within one `process_photo` call, a detection whose embedding is
within cosine distance `0.08` of a previously recorded embedding, or whose
clipped box has IoU above `0.6` with a previously recorded box, is skipped:
the loop state — in particular `identified_people`, `unidentified_faces` and
the encoding cache — is exactly what it was before the detection. -/
theorem processStep_duplicate (known_encodings : List (List ℝ))
    (known_names : List String) (width height : ℤ) (s : PhotoState)
    (box : Box) (encoding : Option (List ℝ)) (temp_id : String)
    (hdup :
      (∃ e, encoding = some e ∧
        ∃ se ∈ s.seen_encodings, cosine_distance se e < 0.08) ∨
      (∃ sb ∈ s.seen_boxes, box_iou sb (clipBox width height box) > 0.6)) :
    processStep known_encodings known_names width height s box encoding
      temp_id = s := by
  have hd :
      (dupByEncoding s.seen_encodings encoding ||
        (!dupByEncoding s.seen_encodings encoding &&
          dupByIoU s.seen_boxes (clipBox width height box))) = true := by
    rcases hdup with ⟨e, he, se, hmem, hlt⟩ | ⟨sb, hmem, hgt⟩
    · have h1 : dupByEncoding s.seen_encodings encoding = true := by
        rw [he]
        simp only [dupByEncoding, List.any_eq_true, decide_eq_true_eq]
        exact ⟨se, hmem, hlt⟩
      rw [h1]
      rfl
    · have h2 : dupByIoU s.seen_boxes (clipBox width height box) = true := by
        simp only [dupByIoU, List.any_eq_true, decide_eq_true_eq]
        exact ⟨sb, hmem, hgt⟩
      cases hdE : dupByEncoding s.seen_encodings encoding <;> simp [h2]
  rw [processStep.eq_def]
  simp only [hd, if_true]

/-- Claim C2, witnessed: a second detection with the same embedding as a
recorded one (cosine distance `0`) leaves the loop state untouched. -/
theorem processStep_duplicate_witness :
    processStep [] [] 100 100
        ⟨[], [], fun _ => none, [[(1 : ℝ)]], []⟩ ⟨0, 0, 10, 10⟩
        (some [1]) "t0" =
      ⟨[], [], fun _ => none, [[(1 : ℝ)]], []⟩ :=
  processStep_duplicate [] [] 100 100 _ _ _ "t0"
    (Or.inl ⟨[1], rfl, [1], by simp, by rw [cd_one_one]; norm_num⟩)

/-! ### Claim C10: `process_photo` with no detected faces -/

/-- Claim C10: when detection produces no boxes, `process_photo` answers with
the temporary photo path and empty `identified_people` and
`unidentified_faces`, and neither the in-memory cache nor the loaded store
is changed. -/
theorem process_photo_no_boxes (known_encodings : List (List ℝ))
    (known_names : List String) (cache : Cache) (width height : ℤ)
    (filename : String) (embeddings : List (List ℝ)) (ids : ℕ → String) :
    process_photo known_encodings known_names cache width height filename []
        embeddings ids =
      { temp_photo_path := "temp_uploads/" ++ filename
        identified_people := []
        unidentified_faces := []
        cache := cache
        store_encodings := known_encodings
        store_names := known_names } := rfl

/-! ### Lemmas about the learning loop of `finalize_and_sort` -/

lemma learnLabel_blank (s : BrainState) (label : NewLabel)
    (h : label.name = "") : learnLabel s label = s := by
  rw [learnLabel, if_pos h]

lemma learnLabel_append (s : BrainState) (label : NewLabel) :
    ∃ de dn,
      (learnLabel s label).known_encodings = s.known_encodings ++ de ∧
      (learnLabel s label).known_names = s.known_names ++ dn ∧
      de.length = dn.length := by
  rw [learnLabel]
  by_cases hn : label.name = ""
  · exact ⟨[], [], by simp [hn], by simp [hn], rfl⟩
  · rw [if_neg hn]
    cases hc : s.cache label.temp_id with
    | none => exact ⟨[], [], by simp, by simp, rfl⟩
    | some v =>
      cases v with
      | none => exact ⟨[], [], by simp, by simp, rfl⟩
      | some enc => exact ⟨[enc], [label.name], by simp, by simp, rfl⟩

lemma foldl_learnLabel_append (labels : List NewLabel) (s : BrainState) :
    ∃ de dn,
      (labels.foldl learnLabel s).known_encodings = s.known_encodings ++ de ∧
      (labels.foldl learnLabel s).known_names = s.known_names ++ dn ∧
      de.length = dn.length := by
  induction labels generalizing s with
  | nil => exact ⟨[], [], by simp, by simp, rfl⟩
  | cons label rest ih =>
    obtain ⟨e0, n0, g1, g2, g3⟩ := learnLabel_append s label
    obtain ⟨de, dn, h1, h2, h3⟩ := ih (learnLabel s label)
    refine ⟨e0 ++ de, n0 ++ dn, ?_, ?_, ?_⟩
    · rw [List.foldl_cons, h1, g1, List.append_assoc]
    · rw [List.foldl_cons, h2, g2, List.append_assoc]
    · simp [g3, h3]

lemma foldl_learnLabel_length (labels : List NewLabel) (s : BrainState)
    (h : s.known_encodings.length = s.known_names.length) :
    (labels.foldl learnLabel s).known_encodings.length =
      (labels.foldl learnLabel s).known_names.length := by
  obtain ⟨de, dn, h1, h2, h3⟩ := foldl_learnLabel_append labels s
  rw [h1, h2]
  simp [h, h3]

/-! ### Claim C3: the parallel-lists invariant of the persisted store -/

/-- Claim C3: if `finalize_and_sort` loads encodings and names of equal
length, the two lists it hands to `save_known_faces` — and hence the data
written wholesale to the pickle file — again have equal length: every
accepted label appends one encoding and one name in lockstep. -/
theorem finalize_preserves_parallel (known_encodings : List (List ℝ))
    (known_names : List String) (cache : Cache) (request : FinalizeRequest)
    (fsExists removeFails : String → Bool)
    (h : known_encodings.length = known_names.length) :
    (finalize_and_sort known_encodings known_names cache request fsExists
        removeFails).saved.encodings.length =
      (finalize_and_sort known_encodings known_names cache request fsExists
        removeFails).saved.names.length := by
  have hlen :=
    foldl_learnLabel_length request.new_labels
      ⟨known_encodings, known_names, cache, dedupNames request.identified_people⟩ h
  rw [finalize_and_sort]
  by_cases hfs : fsExists request.temp_photo_path = false <;>
    simp [hfs, save_known_faces, hlen]

/-- Claim C3, witnessed at a concrete equal-length store. -/
theorem finalize_preserves_parallel_witness :
    [[(1 : ℝ)]].length = ["ada"].length ∧
    (finalize_and_sort [[(1 : ℝ)]] ["ada"] (fun _ => none)
        ⟨"p.jpg", [], []⟩ (fun _ => true) (fun _ => false)).saved.encodings.length =
      (finalize_and_sort [[(1 : ℝ)]] ["ada"] (fun _ => none)
        ⟨"p.jpg", [], []⟩ (fun _ => true) (fun _ => false)).saved.names.length :=
  ⟨rfl,
    finalize_preserves_parallel [[(1 : ℝ)]] ["ada"] (fun _ => none)
      ⟨"p.jpg", [], []⟩ (fun _ => true) (fun _ => false) rfl⟩

/-! ### Claim C4: cleanup failures are swallowed -/

/-- Claim C4: when the temporary photo exists (so the copy loop runs), the
endpoint returns its success message for every behaviour of the deletion
oracle — a failing `os.remove` on the photo or on any crop never changes the
response. -/
theorem finalize_cleanup_swallowed (known_encodings : List (List ℝ))
    (known_names : List String) (cache : Cache) (request : FinalizeRequest)
    (fsExists removeFails : String → Bool)
    (h : fsExists request.temp_photo_path = true) :
    (finalize_and_sort known_encodings known_names cache request fsExists
        removeFails).response =
      Except.ok (success_message
        ((request.new_labels.foldl learnLabel
          ⟨known_encodings, known_names, cache,
            dedupNames request.identified_people⟩).all_names)) := by
  rw [finalize_and_sort]
  simp [h]

/-- Claim C4, witnessed with an oracle on which every deletion fails. -/
theorem finalize_cleanup_swallowed_witness :
    (finalize_and_sort [] [] (fun _ => none) ⟨"p.jpg", ["bo"], []⟩
        (fun _ => true) (fun _ => true)).response =
      Except.ok (success_message
        (([] : List NewLabel).foldl learnLabel
          ⟨[], [], fun _ => none, dedupNames ["bo"]⟩).all_names) :=
  finalize_cleanup_swallowed [] [] (fun _ => none) ⟨"p.jpg", ["bo"], []⟩
    (fun _ => true) (fun _ => true) rfl

/-! ### Claim C8: missing photo gives 404, after the store was saved -/

/-- Claim C8: when the temporary photo named in the request does not exist,
the response is a 404 error, but the pickle file has already been written:
what was saved is exactly `save_known_faces` of the post-learning store —
the loaded lists extended in lockstep by the accepted labels — and it
coincides with what the same request would save on any run where the photo
does exist; the store update is not rolled back on this error path. -/
theorem finalize_missing_photo (known_encodings : List (List ℝ))
    (known_names : List String) (cache : Cache) (request : FinalizeRequest)
    (fsExists removeFails : String → Bool)
    (h : fsExists request.temp_photo_path = false) :
    (finalize_and_sort known_encodings known_names cache request fsExists
        removeFails).response = Except.error 404 ∧
    (finalize_and_sort known_encodings known_names cache request fsExists
        removeFails).saved =
      save_known_faces
        (request.new_labels.foldl learnLabel
          ⟨known_encodings, known_names, cache,
            dedupNames request.identified_people⟩).known_encodings
        (request.new_labels.foldl learnLabel
          ⟨known_encodings, known_names, cache,
            dedupNames request.identified_people⟩).known_names ∧
    (∃ newEncs newNames,
      (request.new_labels.foldl learnLabel
        ⟨known_encodings, known_names, cache,
          dedupNames request.identified_people⟩).known_encodings =
        known_encodings ++ newEncs ∧
      (request.new_labels.foldl learnLabel
        ⟨known_encodings, known_names, cache,
          dedupNames request.identified_people⟩).known_names =
        known_names ++ newNames ∧
      newEncs.length = newNames.length) ∧
    ∀ fsOther : String → Bool, fsOther request.temp_photo_path = true →
      (finalize_and_sort known_encodings known_names cache request fsExists
          removeFails).saved =
        (finalize_and_sort known_encodings known_names cache request fsOther
          removeFails).saved := by
  obtain ⟨de, dn, h1, h2, h3⟩ :=
    foldl_learnLabel_append request.new_labels
      ⟨known_encodings, known_names, cache, dedupNames request.identified_people⟩
  refine ⟨?_, ?_, ⟨de, dn, h1, h2, h3⟩, ?_⟩
  · rw [finalize_and_sort]
    simp [h]
  · rw [finalize_and_sort]
    simp [h]
  · intro fsOther hOther
    rw [finalize_and_sort, finalize_and_sort]
    simp [h, hOther]

/-- Claim C8, witnessed: a request with one accepted label, a missing photo
and a 404 response, whose saved name list is exactly the accepted label —
the pre-404 save visibly contains the new entry. -/
theorem finalize_missing_photo_witness :
    (fun _ => false : String → Bool) "gone.jpg" = false ∧
    ((finalize_and_sort [] [] (fun _ => some (some [(1 : ℝ)]))
        ⟨"gone.jpg", [], [⟨"id0", "cleo"⟩]⟩ (fun _ => false)
        (fun _ => false)).response = Except.error 404 ∧
      (finalize_and_sort [] [] (fun _ => some (some [(1 : ℝ)]))
          ⟨"gone.jpg", [], [⟨"id0", "cleo"⟩]⟩ (fun _ => false)
          (fun _ => false)).saved =
        save_known_faces
          (([⟨"id0", "cleo"⟩] : List NewLabel).foldl learnLabel
            ⟨[], [], fun _ => some (some [(1 : ℝ)]),
              dedupNames []⟩).known_encodings
          (([⟨"id0", "cleo"⟩] : List NewLabel).foldl learnLabel
            ⟨[], [], fun _ => some (some [(1 : ℝ)]),
              dedupNames []⟩).known_names ∧
      (∃ newEncs newNames,
        (([⟨"id0", "cleo"⟩] : List NewLabel).foldl learnLabel
          ⟨[], [], fun _ => some (some [(1 : ℝ)]),
            dedupNames []⟩).known_encodings = [] ++ newEncs ∧
        (([⟨"id0", "cleo"⟩] : List NewLabel).foldl learnLabel
          ⟨[], [], fun _ => some (some [(1 : ℝ)]),
            dedupNames []⟩).known_names = [] ++ newNames ∧
        newEncs.length = newNames.length) ∧
      ∀ fsOther : String → Bool, fsOther "gone.jpg" = true →
        (finalize_and_sort [] [] (fun _ => some (some [(1 : ℝ)]))
            ⟨"gone.jpg", [], [⟨"id0", "cleo"⟩]⟩ (fun _ => false)
            (fun _ => false)).saved =
          (finalize_and_sort [] [] (fun _ => some (some [(1 : ℝ)]))
            ⟨"gone.jpg", [], [⟨"id0", "cleo"⟩]⟩ fsOther
            (fun _ => false)).saved) ∧
    (finalize_and_sort [] [] (fun _ => some (some [(1 : ℝ)]))
        ⟨"gone.jpg", [], [⟨"id0", "cleo"⟩]⟩ (fun _ => false)
        (fun _ => false)).saved.names = ["cleo"] :=
  ⟨rfl,
    finalize_missing_photo [] [] (fun _ => some (some [(1 : ℝ)]))
      ⟨"gone.jpg", [], [⟨"id0", "cleo"⟩]⟩ (fun _ => false) (fun _ => false) rfl,
    by rfl⟩

/-! ### Claim C9: blank names are skipped entirely -/

/-- Claim C9: a `new_labels` entry whose name is the empty string changes
nothing: dropping it from the request leaves the saved store, the cache, the
set of people the photo is sorted under, and the response identical. -/
theorem finalize_blank_label (known_encodings : List (List ℝ))
    (known_names : List String) (cache : Cache) (path : String)
    (identified : List String) (pre post : List NewLabel) (label : NewLabel)
    (fsExists removeFails : String → Bool) (h : label.name = "") :
    (finalize_and_sort known_encodings known_names cache
        ⟨path, identified, pre ++ label :: post⟩ fsExists removeFails).saved =
      (finalize_and_sort known_encodings known_names cache
        ⟨path, identified, pre ++ post⟩ fsExists removeFails).saved ∧
    (finalize_and_sort known_encodings known_names cache
        ⟨path, identified, pre ++ label :: post⟩ fsExists removeFails).cache =
      (finalize_and_sort known_encodings known_names cache
        ⟨path, identified, pre ++ post⟩ fsExists removeFails).cache ∧
    (finalize_and_sort known_encodings known_names cache
        ⟨path, identified, pre ++ label :: post⟩ fsExists
        removeFails).sorted_under =
      (finalize_and_sort known_encodings known_names cache
        ⟨path, identified, pre ++ post⟩ fsExists removeFails).sorted_under ∧
    (finalize_and_sort known_encodings known_names cache
        ⟨path, identified, pre ++ label :: post⟩ fsExists
        removeFails).response =
      (finalize_and_sort known_encodings known_names cache
        ⟨path, identified, pre ++ post⟩ fsExists removeFails).response := by
  have hfold : ∀ s : BrainState,
      (pre ++ label :: post).foldl learnLabel s =
        (pre ++ post).foldl learnLabel s := by
    intro s
    rw [List.foldl_append, List.foldl_append, List.foldl_cons,
      learnLabel_blank _ label h]
  rw [finalize_and_sort, finalize_and_sort]
  simp only [hfold]
  by_cases hfs : fsExists path = false <;> simp [hfs]

/-- Claim C9, witnessed at a concrete blank-named label. -/
theorem finalize_blank_label_witness :
    (finalize_and_sort [] [] (fun _ => some (some [(1 : ℝ)]))
        ⟨"p.jpg", [], [⟨"id0", ""⟩]⟩ (fun _ => true) (fun _ => false)).saved =
      (finalize_and_sort [] [] (fun _ => some (some [(1 : ℝ)]))
        ⟨"p.jpg", [], []⟩ (fun _ => true) (fun _ => false)).saved ∧
    (finalize_and_sort [] [] (fun _ => some (some [(1 : ℝ)]))
        ⟨"p.jpg", [], [⟨"id0", ""⟩]⟩ (fun _ => true) (fun _ => false)).cache =
      (finalize_and_sort [] [] (fun _ => some (some [(1 : ℝ)]))
        ⟨"p.jpg", [], []⟩ (fun _ => true) (fun _ => false)).cache ∧
    (finalize_and_sort [] [] (fun _ => some (some [(1 : ℝ)]))
        ⟨"p.jpg", [], [⟨"id0", ""⟩]⟩ (fun _ => true)
        (fun _ => false)).sorted_under =
      (finalize_and_sort [] [] (fun _ => some (some [(1 : ℝ)]))
        ⟨"p.jpg", [], []⟩ (fun _ => true) (fun _ => false)).sorted_under ∧
    (finalize_and_sort [] [] (fun _ => some (some [(1 : ℝ)]))
        ⟨"p.jpg", [], [⟨"id0", ""⟩]⟩ (fun _ => true)
        (fun _ => false)).response =
      (finalize_and_sort [] [] (fun _ => some (some [(1 : ℝ)]))
        ⟨"p.jpg", [], []⟩ (fun _ => true) (fun _ => false)).response :=
  finalize_blank_label [] [] (fun _ => some (some [(1 : ℝ)])) "p.jpg" []
    [] [] ⟨"id0", ""⟩ (fun _ => true) (fun _ => false) rfl
